import Mathlib

/-!
Shallow embedding of the core pipeline of `myapp_v1.2.py`, an interactive
dataframe filter app: CSV loading with date validation, date-window
resolution, cumulative per-column sign filtering with min/max range
computation, symbol/date/range filter composition, symbol link rewriting,
pagination and CSV export.

Dataframe cells are modelled by `RawValue`: a finite rational (floats carry
no roundoff relevant to the filtering logic, which only compares), positive
or negative infinity, NaN (missing), or a non-numeric string. Trade dates
are day numbers (`Int`); `daysFromCivil` converts a calendar date to its
day number so that timedelta arithmetic on timestamps is day arithmetic.
-/

/-- One dataframe cell: a finite number, an infinity, a missing value (NaN),
or a non-numeric string. -/
inductive RawValue
  | num (q : Rat)
  | posInf
  | negInf
  | nan
  | str (s : String)
deriving DecidableEq

/-- One row of the loaded dataframe: the parsed Trade Date (day number),
the Ticker Symbol, and the remaining named columns. -/
structure Row where
  tradeDate : Int
  symbol : String
  fields : List (String × RawValue)
deriving DecidableEq

/-- Read column `c` of a row; an absent column reads as NaN. -/
def Row.get (r : Row) (c : String) : RawValue :=
  match r.fields.lookup c with
  | some v => v
  | none => RawValue.nan

/-- Column assignment `df[c] = v` at the row level: update in place when the
column exists (pandas keeps column order), append it otherwise. -/
def setField : List (String × RawValue) → String → RawValue → List (String × RawValue)
  | [], c, v => [(c, v)]
  | (k, w) :: rest, c, v =>
      if k = c then (k, v) :: rest else (k, w) :: setField rest c v

/-- Row with column `c` set to `v`. -/
def Row.set (r : Row) (c : String) (v : RawValue) : Row :=
  ⟨r.tradeDate, r.symbol, setField r.fields c v⟩

/-- `pd.to_numeric(..., errors=coerce)` on one cell: numbers and infinities
pass through, anything non-numeric becomes NaN. -/
def to_numeric : RawValue → RawValue
  | RawValue.num q => RawValue.num q
  | RawValue.posInf => RawValue.posInf
  | RawValue.negInf => RawValue.negInf
  | RawValue.nan => RawValue.nan
  | RawValue.str _ => RawValue.nan

/-- `.replace([np.inf, -np.inf], np.nan)` on one cell. -/
def replaceInf : RawValue → RawValue
  | RawValue.posInf => RawValue.nan
  | RawValue.negInf => RawValue.nan
  | v => v

/-- The two coercion steps the app runs on a selected numeric column. -/
def scrubVal (v : RawValue) : RawValue :=
  replaceInf (to_numeric v)

/-- Coerce column `c` of the whole working dataframe
(`df[col] = pd.to_numeric(df[col], errors=coerce)` then the inf replace). -/
def scrubCol (c : String) (rows : List Row) : List Row :=
  rows.map (fun r => r.set c (scrubVal (r.get c)))

/-- The numeric view of a cell used by comparisons: `some q` for a finite
number, `none` for NaN / infinity / non-numeric (every comparison against
`none` is false, as NaN comparisons are in pandas). -/
def Row.val (r : Row) (c : String) : Option Rat :=
  match r.get c with
  | RawValue.num q => some q
  | _ => none

/-- Sign-filter mode of one numeric column (the per-column radio control). -/
inductive SignMode
  | all
  | positiveOnly
  | negativeOnly
deriving DecidableEq

/-- Row predicate of the sign filter: `df[col] > 0` keeps rows whose value
is a finite number greater than zero, `df[col] < 0` symmetrically; a NaN
comparison is false. -/
def signKeep (m : SignMode) (c : String) (r : Row) : Bool :=
  match m with
  | SignMode.all => true
  | SignMode.positiveOnly =>
      match r.val c with
      | some q => decide (0 < q)
      | none => false
  | SignMode.negativeOnly =>
      match r.val c with
      | some q => decide (q < 0)
      | none => false

/-- The destructive sign filter `df = df[df[col] > 0]` (resp. `< 0`). -/
def signFilter (m : SignMode) (c : String) (rows : List Row) : List Row :=
  rows.filter (signKeep m c)

/-- `df[col].dropna()`: the finite numeric values of column `c`. -/
def colVals (c : String) (rows : List Row) : List Rat :=
  rows.filterMap (fun r => r.val c)

/-- Minimum of a float series, skipping missing values; `none` when the
series is empty (pandas returns NaN there, which fails `np.isfinite`). -/
def listMin : List Rat → Option Rat
  | [] => none
  | q :: rest =>
      match listMin rest with
      | none => some q
      | some m => some (min q m)

/-- Maximum of a float series, skipping missing values; `none` when empty. -/
def listMax : List Rat → Option Rat
  | [] => none
  | q :: rest =>
      match listMax rest with
      | none => some q
      | some m => some (max q m)

/-- Working dataframe plus the accumulated `filters` dict of slider ranges. -/
structure EngineState where
  rows : List Row
  ranges : List (String × Rat × Rat)
deriving DecidableEq

/-- One iteration of the numeric-filter loop (source lines 81-107): coerce
the column, apply its sign filter destructively to the whole working
dataframe, then record the full `[min, max]` slider range when both are
finite, and skip the slider otherwise. -/
def engineStep (s : EngineState) (c : String) (m : SignMode) : EngineState :=
  let rows1 := signFilter m c (scrubCol c s.rows)
  match listMin (colVals c rows1), listMax (colVals c rows1) with
  | some lo, some hi => ⟨rows1, s.ranges ++ [(c, lo, hi)]⟩
  | _, _ => ⟨rows1, s.ranges⟩

/-- The numeric range engine: the loop over the selected numeric columns in
order, threading the destructively filtered dataframe. -/
def runEngine (specs : List (String × SignMode)) (rows : List Row) : EngineState :=
  specs.foldl (fun s p => engineStep s p.1 p.2) ⟨rows, []⟩

/-- Symbol filter `df[df[Ticker Symbol].isin(selected_tickers)]`. -/
def symbolFilter (sel : List String) (rows : List Row) : List Row :=
  rows.filter (fun r => decide (r.symbol ∈ sel))

/-- Date-window filter: keep rows with `d0 <= Trade Date <= d1`. -/
def dateFilter (d0 d1 : Int) (rows : List Row) : List Row :=
  rows.filter (fun r => decide (d0 ≤ r.tradeDate) && decide (r.tradeDate ≤ d1))

/-- Range predicate of one slider: `lo <= df[col] <= hi`; false (row
dropped, no error) when the value is missing. -/
def rangeKeep (c : String) (lo hi : Rat) (r : Row) : Bool :=
  match r.val c with
  | some v => decide (lo ≤ v) && decide (v ≤ hi)
  | none => false

/-- The loop over `filters.items()` applying every slider range in turn. -/
def rangeFilter (ranges : List (String × Rat × Rat)) (rows : List Row) : List Row :=
  ranges.foldl (fun acc p => acc.filter (rangeKeep p.1 p.2.1 p.2.2)) rows

/-- The filter compositor (source lines 110-117): symbol membership, then
the inclusive date window, then every active numeric range. -/
def filtered_df (rows : List Row) (sel : List String) (d0 d1 : Int)
    (ranges : List (String × Rat × Rat)) : List Row :=
  rangeFilter ranges (dateFilter d0 d1 (symbolFilter sel rows))

/-- The four preset date-filter modes. -/
inductive DateMode
  | latestDate
  | yesterday
  | lastWeek
  | lastMonth
deriving DecidableEq

/-- The filter resolver (source lines 18-36): a date window from the preset
mode and the maximum trade date, with Timedelta arithmetic on day numbers
(1 day, 1 week = 7 days, 1 month preset = 30 days). -/
def date_range (mode : DateMode) (latest : Int) : Int × Int :=
  match mode with
  | DateMode.latestDate => (latest, latest)
  | DateMode.yesterday => (latest - 1, latest)
  | DateMode.lastWeek => (latest - 7, latest)
  | DateMode.lastMonth => (latest - 30, latest)

/-- Day number of a proleptic Gregorian calendar date (days since
1970-01-01), so that timestamp subtraction is integer subtraction. -/
def daysFromCivil (y m d : Int) : Int :=
  let yy := y - (if m ≤ 2 then 1 else 0)
  let era := (if 0 ≤ yy then yy else yy - 399) / 400
  let yoe := yy - era * 400
  let mp := (m + 9) % 12
  let doy := (153 * mp + 2) / 5 + d - 1
  let doe := yoe * 365 + yoe / 4 - yoe / 100 + doy
  era * 146097 + doe - 719468

/-- One raw CSV row before date validation: the Trade Date parse result
(`none` when `pd.to_datetime(..., errors=coerce)` yields NaT) plus the
other cells. -/
structure RawRow where
  rawDate : Option Int
  symbol : String
  fields : List (String × RawValue)
deriving DecidableEq

/-- The loader tail (source lines 15-16): coerce the date column and
`dropna` the rows whose Trade Date failed to parse. -/
def loadRows (raws : List RawRow) : List Row :=
  raws.filterMap (fun rr => rr.rawDate.map (fun d => ⟨d, rr.symbol, rr.fields⟩))

/-- `make_tradingview_link` (source lines 120-121). -/
def make_tradingview_link (ticker : String) : String :=
  "[" ++ ticker ++ "](https://www.tradingview.com/chart/?symbol=NSE:" ++ ticker ++ ")"

/-- Rewrite the Ticker Symbol column of the filtered dataframe into
markdown links (source line 123). -/
def linkColumn (rows : List Row) : List Row :=
  rows.map (fun r => ⟨r.tradeDate, make_tradingview_link r.symbol, r.fields⟩)

/-- Fixed page size of the pagination slider. -/
def rows_per_page : Nat := 10

/-- Largest selectable page number of the slider (source line 130):
`(num_rows // rows_per_page) + 1`. -/
def maxPage (numRows : Nat) : Nat := numRows / rows_per_page + 1

/-- The paginator (source lines 126-135): when the filtered dataframe has
more than one page of rows, take the `iloc` slice of the 1-based page;
otherwise show everything. -/
def filtered_df_paginated {α : Type} (rows : List α) (page : Nat) : List α :=
  if rows.length > rows_per_page then
    (rows.drop ((page - 1) * rows_per_page)).take rows_per_page
  else rows

/-- Render one cell of the display/export table as text. -/
def renderCell (r : Row) (c : String) : String :=
  if c = "Ticker Symbol" then r.symbol
  else if c = "Trade Date" then toString r.tradeDate
  else
    match r.get c with
    | RawValue.num q => toString q
    | RawValue.str s => s
    | _ => ""

/-- `to_csv` of the filtered dataframe restricted to the display columns in
their selected order (source line 141): header row then one row per
filtered record. -/
def to_csv (rows : List Row) (cols : List String) : List (List String) :=
  cols :: rows.map (fun r => cols.map (renderCell r))

/-- The tail of the pipeline from the composed filter on (source lines
110-142): filter, rewrite the symbol column, paginate, export. Returns the
linked filtered dataframe, the displayed page, and the CSV rows. -/
def appPipeline (rows : List Row) (sel : List String) (d0 d1 : Int)
    (ranges : List (String × Rat × Rat)) (cols : List String) (page : Nat) :
    List Row × List Row × List (List String) :=
  let fdf := linkColumn (filtered_df rows sel d0 d1 ranges)
  (fdf, filtered_df_paginated fdf page, to_csv fdf cols)

/-- The composed row predicate the three filter stages amount to. -/
def composedKeep (sel : List String) (d0 d1 : Int)
    (ranges : List (String × Rat × Rat)) (r : Row) : Bool :=
  (ranges.all (fun p => rangeKeep p.1 p.2.1 p.2.2 r) &&
    (decide (d0 ≤ r.tradeDate) && decide (r.tradeDate ≤ d1))) &&
    decide (r.symbol ∈ sel)

theorem rangeFilter_eq_filter (ranges : List (String × Rat × Rat)) (rows : List Row) :
    rangeFilter ranges rows =
      rows.filter (fun r => ranges.all (fun p => rangeKeep p.1 p.2.1 p.2.2 r)) := by
  induction ranges generalizing rows with
  | nil => simp [rangeFilter]
  | cons hd tl ih =>
      have hstep : rangeFilter (hd :: tl) rows =
          rangeFilter tl (rows.filter (rangeKeep hd.1 hd.2.1 hd.2.2)) := rfl
      rw [hstep, ih, List.filter_filter]
      refine List.filter_congr (fun r _ => ?_)
      simp [List.all_cons, Bool.and_comm]

theorem filtered_df_eq_filter (rows : List Row) (sel : List String) (d0 d1 : Int)
    (ranges : List (String × Rat × Rat)) :
    filtered_df rows sel d0 d1 ranges = rows.filter (composedKeep sel d0 d1 ranges) := by
  rw [filtered_df, rangeFilter_eq_filter, dateFilter, symbolFilter,
    List.filter_filter, List.filter_filter]
  rfl

theorem rangeKeep_eq_true_iff (c : String) (lo hi : Rat) (r : Row) :
    rangeKeep c lo hi r = true ↔ ∃ v : Rat, r.val c = some v ∧ lo ≤ v ∧ v ≤ hi := by
  unfold rangeKeep
  cases h : r.val c <;> simp

/-- C1: the composed filter returns exactly the rows of its input (the
dataset as left by the cumulative sign filtering) whose symbol is
selected, whose trade date lies in the inclusive window, and whose value
in every actively ranged field exists and lies in that range. -/
theorem mem_filtered_df_iff (rows : List Row) (sel : List String) (d0 d1 : Int)
    (ranges : List (String × Rat × Rat)) (r : Row) :
    r ∈ filtered_df rows sel d0 d1 ranges ↔
      r ∈ rows ∧ r.symbol ∈ sel ∧ (d0 ≤ r.tradeDate ∧ r.tradeDate ≤ d1) ∧
        ∀ p ∈ ranges, ∃ v : Rat, r.val p.1 = some v ∧ p.2.1 ≤ v ∧ v ≤ p.2.2 := by
  rw [filtered_df_eq_filter, List.mem_filter, composedKeep]
  simp only [Bool.and_eq_true, List.all_eq_true, decide_eq_true_iff,
    rangeKeep_eq_true_iff]
  tauto

/-- C7: applying the same FilterSet (symbol set, date window and active
ranges) a second time to an already filtered dataset changes nothing. -/
theorem filtered_df_idempotent (rows : List Row) (sel : List String) (d0 d1 : Int)
    (ranges : List (String × Rat × Rat)) :
    filtered_df (filtered_df rows sel d0 d1 ranges) sel d0 d1 ranges =
      filtered_df rows sel d0 d1 ranges := by
  simp only [filtered_df_eq_filter, List.filter_filter, Bool.and_self]

/-- The slider range recorded for column `c` over working set `w`: the
full `[min, max]` of the finite values, or nothing when min or max is
non-finite. -/
def rangeEntry (c : String) (w : List Row) : List (String × Rat × Rat) :=
  match listMin (colVals c w), listMax (colVals c w) with
  | some lo, some hi => [(c, lo, hi)]
  | _, _ => []

/-- Modelled from the spec wording of the numeric range engine, for
comparison with `runEngine`: the working set remaining after each field
has applied its sign filter cumulatively, in order. -/
def cumulativeRows : List (String × SignMode) → List Row → List Row
  | [], rows => rows
  | (c, m) :: rest, rows => cumulativeRows rest (signFilter m c (scrubCol c rows))

/-- Modelled from the spec wording of the numeric range engine, for
comparison with `runEngine`: field N's range is the min/max of its values
over the working set remaining after field N's own sign filter and after
all earlier fields' sign filters, and a field whose min or max is
non-finite gets no range control. -/
def cumulativeRanges : List (String × SignMode) → List Row → List (String × Rat × Rat)
  | [], _ => []
  | (c, m) :: rest, rows =>
      rangeEntry c (signFilter m c (scrubCol c rows)) ++
        cumulativeRanges rest (signFilter m c (scrubCol c rows))

theorem engineStep_eq (s : EngineState) (c : String) (m : SignMode) :
    engineStep s c m =
      ⟨signFilter m c (scrubCol c s.rows),
        s.ranges ++ rangeEntry c (signFilter m c (scrubCol c s.rows))⟩ := by
  unfold engineStep rangeEntry
  cases hmin : listMin (colVals c (signFilter m c (scrubCol c s.rows))) <;>
    cases hmax : listMax (colVals c (signFilter m c (scrubCol c s.rows))) <;>
      simp [hmin, hmax]

theorem engineFoldl_rows (specs : List (String × SignMode)) (s : EngineState) :
    (specs.foldl (fun t p => engineStep t p.1 p.2) s).rows =
      cumulativeRows specs s.rows := by
  induction specs generalizing s with
  | nil => rfl
  | cons hd tl ih =>
      cases hd with
      | mk c m =>
          rw [List.foldl_cons, ih, engineStep_eq]
          rfl

theorem engineFoldl_ranges (specs : List (String × SignMode)) (s : EngineState) :
    (specs.foldl (fun t p => engineStep t p.1 p.2) s).ranges =
      s.ranges ++ cumulativeRanges specs s.rows := by
  induction specs generalizing s with
  | nil => simp [cumulativeRanges]
  | cons hd tl ih =>
      cases hd with
      | mk c m =>
          rw [List.foldl_cons, ih, engineStep_eq]
          simp [cumulativeRanges, List.append_assoc]

/-- C2: the numeric range engine processes the selected fields in order,
applying each sign filter destructively to the whole working dataset, so
its final working set is the cumulative one and the range recorded for
each field is the min/max of that field over the working set remaining
after its own and all earlier sign filters, with no range control when
that min or max is non-finite. -/
theorem runEngine_cumulative (specs : List (String × SignMode)) (rows : List Row) :
    runEngine specs rows = ⟨cumulativeRows specs rows, cumulativeRanges specs rows⟩ := by
  have h1 := engineFoldl_rows specs ⟨rows, []⟩
  have h2 := engineFoldl_ranges specs ⟨rows, []⟩
  simp only [List.nil_append] at h2
  cases hrun : runEngine specs rows with
  | mk rs rg =>
      rw [runEngine] at hrun
      rw [hrun] at h1 h2
      simp only at h1 h2
      rw [h1, h2]

/-- The one-time per-column coercion passes of the engine, without the
sign filters: what the engine does to the dataset besides dropping rows. -/
def scrubAll : List (String × SignMode) → List Row → List Row
  | [], rows => rows
  | (c, _) :: rest, rows => scrubAll rest (scrubCol c rows)

theorem cumulativeRows_sublist_scrubAll (specs : List (String × SignMode))
    {l1 l2 : List Row} (h : l1.Sublist l2) :
    (cumulativeRows specs l1).Sublist (scrubAll specs l2) := by
  induction specs generalizing l1 l2 with
  | nil => exact h
  | cons hd tl ih =>
      cases hd with
      | mk c m =>
          refine ih ?_
          exact (List.filter_sublist _).trans (h.map _)

/-- C9: every filtering stage only removes rows, preserving relative
order: the sign filter, the symbol filter, the date filter, the range
filters and the whole compositor each return a sublist of their input, a
displayed page is a sublist of the filtered set, and the engine's final
working set — and hence the composed filtered set and every page of it —
is a sublist of the loaded dataset as modified only by the one-time
per-column coercions. -/
theorem filtering_preserves_order (m : SignMode) (c : String) (rows : List Row)
    (sel : List String) (d0 d1 : Int) (ranges : List (String × Rat × Rat))
    (specs : List (String × SignMode)) (p : Nat) :
    (signFilter m c rows).Sublist rows ∧
    (symbolFilter sel rows).Sublist rows ∧
    (dateFilter d0 d1 rows).Sublist rows ∧
    (rangeFilter ranges rows).Sublist rows ∧
    (filtered_df rows sel d0 d1 ranges).Sublist rows ∧
    (filtered_df_paginated rows p).Sublist rows ∧
    ((runEngine specs rows).rows).Sublist (scrubAll specs rows) ∧
    (filtered_df_paginated
        (filtered_df (runEngine specs rows).rows sel d0 d1 ranges) p).Sublist
      (scrubAll specs rows) := by
  have hpag : ∀ (l : List Row) (q : Nat), (filtered_df_paginated l q).Sublist l := by
    intro l q
    rw [filtered_df_paginated]
    by_cases hl : l.length > rows_per_page
    · rw [if_pos hl]
      exact (List.take_sublist _ _).trans (List.drop_sublist _ _)
    · rw [if_neg hl]
  have hfdf : ∀ l : List Row, (filtered_df l sel d0 d1 ranges).Sublist l := by
    intro l
    rw [filtered_df_eq_filter]
    exact List.filter_sublist l
  have heng : ((runEngine specs rows).rows).Sublist (scrubAll specs rows) := by
    rw [runEngine, engineFoldl_rows]
    exact cumulativeRows_sublist_scrubAll specs (List.Sublist.refl rows)
  refine ⟨List.filter_sublist rows, List.filter_sublist rows, List.filter_sublist rows,
    ?_, hfdf rows, hpag rows p, heng, ?_⟩
  · rw [rangeFilter_eq_filter]
    exact List.filter_sublist rows
  · exact ((hpag _ p).trans (hfdf _)).trans heng

/-- C4: the filter resolver is a pure function of the mode and the maximum
trade date: LatestDateOnly gives (latest, latest), Yesterday gives
(latest - 1 day, latest), LastWeek gives (latest - 7 days, latest),
LastMonth gives (latest - 30 days, latest); and for LastWeek with latest =
2024-06-10 the window is (2024-06-03, 2024-06-10). -/
theorem date_range_spec :
    (∀ latest : Int,
      date_range DateMode.latestDate latest = (latest, latest) ∧
      date_range DateMode.yesterday latest = (latest - 1, latest) ∧
      date_range DateMode.lastWeek latest = (latest - 7, latest) ∧
      date_range DateMode.lastMonth latest = (latest - 30, latest)) ∧
    date_range DateMode.lastWeek (daysFromCivil 2024 6 10) =
      (daysFromCivil 2024 6 3, daysFromCivil 2024 6 10) := by
  refine ⟨fun latest => ⟨rfl, rfl, rfl, rfl⟩, ?_⟩
  have h : daysFromCivil 2024 6 10 - 7 = daysFromCivil 2024 6 3 := by decide
  simp only [date_range, h]

/-- C5: with page size 10, pagination is bypassed when the filtered set has
at most 10 rows; otherwise page p is the slice from index (p-1)*10 of
length at most 10 (clamped to the dataset bounds), and the last selectable
page (num_rows / 10 + 1) is empty exactly when the row count is a
multiple of 10. -/
theorem filtered_df_paginated_spec {α : Type} (rows : List α) (p : Nat) :
    (rows.length ≤ rows_per_page → filtered_df_paginated rows p = rows) ∧
    (rows_per_page < rows.length →
      (∀ i : Nat,
        (filtered_df_paginated rows p)[i]? =
          if i < rows_per_page then rows[(p - 1) * rows_per_page + i]? else none) ∧
      (filtered_df_paginated rows (maxPage rows.length) = [] ↔
        rows.length % rows_per_page = 0)) := by
  simp only [filtered_df_paginated, rows_per_page, maxPage]
  refine ⟨fun h => ?_, fun h => ⟨fun i => ?_, ?_⟩⟩
  · rw [if_neg (by omega)]
  · rw [if_pos (by omega)]
    by_cases hi : i < 10
    · rw [if_pos hi, List.getElem?_take_of_lt hi, List.getElem?_drop]
    · rw [if_neg hi, List.getElem?_eq_none]
      have := List.length_take 10 (rows.drop ((p - 1) * 10))
      omega
  · rw [if_pos (by omega)]
    rw [List.take_eq_nil_iff, List.drop_eq_nil_iff]
    omega

/-- C5 witness: for 12 rows the pagination hypotheses hold concretely and
the last selectable page is nonempty, matching 12 not being a multiple
of 10. -/
theorem filtered_df_paginated_spec_witness :
    filtered_df_paginated (List.range 12) (maxPage (List.range 12).length) = [] ↔
      (List.range 12).length % rows_per_page = 0 :=
  ((filtered_df_paginated_spec (List.range 12) 2).2 (by decide)).2

/-- C6 counterexample: for 25 rows the documented boundary rule offers
pages 1 through (25 / 10) + 1 = 3 only, so page 4 cannot be requested
under that rule, contrary to the claim. -/
theorem page4_not_selectable_for_25 : maxPage 25 = 3 ∧ ¬ (4 ≤ maxPage 25) := by
  decide

/-- C6 amended: for a filtered set of exactly 25 rows and page size 10,
page 1 is rows[0:10], page 2 is rows[10:20], page 3 is rows[20:25]; the
documented boundary rule offers pages 1 through 3 only, so page 4 is not
selectable, though evaluating the slice formula at page 4 does yield an
empty page. -/
theorem paginate_25_rows {α : Type} (rows : List α) (h : rows.length = 25) :
    filtered_df_paginated rows 1 = rows.take 10 ∧
    filtered_df_paginated rows 2 = (rows.drop 10).take 10 ∧
    filtered_df_paginated rows 3 = rows.drop 20 ∧
    maxPage rows.length = 3 ∧
    filtered_df_paginated rows 4 = [] := by
  have h10 : rows.length > 10 := by omega
  refine ⟨?_, ?_, ?_, ?_, ?_⟩
  · simp only [filtered_df_paginated, rows_per_page]
    rw [if_pos h10]
    norm_num
  · simp only [filtered_df_paginated, rows_per_page]
    rw [if_pos h10]
  · simp only [filtered_df_paginated, rows_per_page]
    rw [if_pos h10]
    norm_num
    omega
  · rw [h]
    decide
  · simp only [filtered_df_paginated, rows_per_page]
    rw [if_pos h10]
    norm_num
    omega

/-- C6 witness: the amended pagination facts evaluated on the 25-element
list 0..24. -/
theorem paginate_25_rows_witness :
    filtered_df_paginated (List.range 25) 3 = (List.range 25).drop 20 ∧
    filtered_df_paginated (List.range 25) 4 = ([] : List Nat) :=
  ⟨(paginate_25_rows (List.range 25) (by decide)).2.2.1,
    (paginate_25_rows (List.range 25) (by decide)).2.2.2.2⟩

/-- C8: malformed values are dropped non-fatally. Rows whose Trade Date
fails to parse are silently removed by the loader (the loaded dataset is
exactly the date-parseable raw rows, in order, with their parsed dates);
non-numeric cells and both infinities coerce to missing; a missing value
contributes nothing to a min/max computation; and the range and sign
comparisons on a missing value simply return false (the row is dropped),
with every function total, so no exception is raised. -/
theorem malformed_values_dropped :
    (∀ raws : List RawRow,
      loadRows raws = (raws.filter (fun rr => rr.rawDate.isSome)).map
        (fun rr => ⟨rr.rawDate.getD 0, rr.symbol, rr.fields⟩)) ∧
    (∀ s : String, scrubVal (RawValue.str s) = RawValue.nan) ∧
    scrubVal RawValue.posInf = RawValue.nan ∧
    scrubVal RawValue.negInf = RawValue.nan ∧
    (∀ (c : String) (r : Row) (rows : List Row),
      r.val c = none → colVals c (r :: rows) = colVals c rows) ∧
    (∀ (c : String) (lo hi : Rat) (r : Row),
      r.val c = none →
        rangeKeep c lo hi r = false ∧
        signKeep SignMode.positiveOnly c r = false ∧
        signKeep SignMode.negativeOnly c r = false) := by
  refine ⟨?_, fun s => rfl, rfl, rfl, ?_, ?_⟩
  · intro raws
    induction raws with
    | nil => rfl
    | cons rr rest ih =>
        cases h : rr.rawDate with
        | none => simp [loadRows, h, List.filter_cons] at ih ⊢; exact ih
        | some d => simp [loadRows, h, List.filter_cons] at ih ⊢; exact ih
  · intro c r rows h
    simp [colVals, h]
  · intro c lo hi r h
    refine ⟨?_, ?_, ?_⟩ <;> simp [rangeKeep, signKeep, h]

/-- C8 witness: a row whose field X is a non-numeric string contributes
nothing to the min/max values of X and fails the range and sign filters,
on concrete inputs. -/
theorem malformed_values_dropped_witness :
    colVals "X" (Row.mk 0 "S" [("X", RawValue.str "oops")] :: []) = colVals "X" [] ∧
    rangeKeep "X" 0 1 (Row.mk 0 "S" [("X", RawValue.str "oops")]) = false :=
  ⟨malformed_values_dropped.2.2.2.2.1 "X" (Row.mk 0 "S" [("X", RawValue.str "oops")]) [] rfl,
    (malformed_values_dropped.2.2.2.2.2 "X" 0 1
      (Row.mk 0 "S" [("X", RawValue.str "oops")]) rfl).1⟩

theorem renderCell_link (r : Row) (c : String) :
    renderCell ⟨r.tradeDate, make_tradingview_link r.symbol, r.fields⟩ c =
      if c = "Ticker Symbol" then make_tradingview_link r.symbol
      else renderCell r c := by
  by_cases h : c = "Ticker Symbol" <;> simp [renderCell, Row.get, h]

theorem paginate_linkColumn (rows : List Row) (p : Nat) :
    filtered_df_paginated (linkColumn rows) p =
      linkColumn (filtered_df_paginated rows p) := by
  simp only [filtered_df_paginated, linkColumn, List.length_map]
  by_cases h : rows.length > rows_per_page
  · rw [if_pos h, if_pos h, ← List.map_drop, ← List.map_take]
  · rw [if_neg h, if_neg h]

/-- C10: the link transformer is applied to the filtered set before both
pagination and export: the exported CSV is the header followed by one row
per filtered record, in order, restricted to the selected display columns
in their selected order, with every Ticker Symbol cell being the markdown
link built from the raw symbol; and the displayed page is the link
transform of the corresponding raw page of the full filtered set. -/
theorem link_transform_spec (rows : List Row) (sel : List String) (d0 d1 : Int)
    (ranges : List (String × Rat × Rat)) (cols : List String) (p : Nat) :
    (appPipeline rows sel d0 d1 ranges cols p).2.2 =
      cols :: (filtered_df rows sel d0 d1 ranges).map (fun r =>
        cols.map (fun c =>
          if c = "Ticker Symbol" then make_tradingview_link r.symbol
          else renderCell r c)) ∧
    (appPipeline rows sel d0 d1 ranges cols p).2.1 =
      linkColumn (filtered_df_paginated (filtered_df rows sel d0 d1 ranges) p) := by
  constructor
  · simp only [appPipeline, to_csv, linkColumn, List.map_map, Function.comp]
    refine congrArg (List.cons cols) (List.map_congr_left fun r hr => ?_)
    exact List.map_congr_left fun c hc => renderCell_link r c
  · exact paginate_linkColumn _ p

theorem lookup_setField_self (l : List (String × RawValue)) (c : String) (v : RawValue) :
    (setField l c v).lookup c = some v := by
  induction l with
  | nil => simp [setField, List.lookup]
  | cons hd tl ih =>
      cases hd with
      | mk k w =>
          by_cases h : k = c
          · subst h
            simp [setField, List.lookup]
          · have hck : (c == k) = false := beq_eq_false_iff_ne.2 (Ne.symm h)
            simp [setField, h, List.lookup, hck, ih]

theorem lookup_setField_ne (l : List (String × RawValue)) (c d : String) (v : RawValue)
    (h : d ≠ c) : (setField l c v).lookup d = l.lookup d := by
  have hdc : (d == c) = false := beq_eq_false_iff_ne.2 h
  induction l with
  | nil => simp [setField, List.lookup, hdc]
  | cons hd tl ih =>
      cases hd with
      | mk k w =>
          by_cases hkc : k = c
          · subst hkc
            simp [setField, List.lookup, hdc]
          · by_cases hdk : d = k
            · subst hdk
              simp [setField, hkc, List.lookup]
            · have hdk2 : (d == k) = false := beq_eq_false_iff_ne.2 hdk
              simp [setField, hkc, List.lookup, hdk2, ih]

theorem lookup_setField_isSome (l : List (String × RawValue)) (c d : String) (v : RawValue)
    (h : (l.lookup d).isSome = true) : ((setField l c v).lookup d).isSome = true := by
  by_cases hdc : d = c
  · subst hdc
    rw [lookup_setField_self]
    rfl
  · rw [lookup_setField_ne l c d v hdc]
    exact h

theorem get_set_self (r : Row) (c : String) (v : RawValue) : (r.set c v).get c = v := by
  simp [Row.get, Row.set, lookup_setField_self]

theorem get_set_ne (r : Row) (c d : String) (v : RawValue) (h : d ≠ c) :
    (r.set c v).get d = r.get d := by
  simp [Row.get, Row.set, lookup_setField_ne r.fields c d v h]

theorem val_set_ne (r : Row) (c d : String) (v : RawValue) (h : d ≠ c) :
    (r.set c v).val d = r.val d := by
  simp [Row.val, get_set_ne r c d v h]

theorem setField_comm (l : List (String × RawValue)) (c d : String) (v w : RawValue)
    (hcd : c ≠ d) (hc : (l.lookup c).isSome = true) :
    setField (setField l c v) d w = setField (setField l d w) c v := by
  induction l with
  | nil => simp [List.lookup] at hc
  | cons hd tl ih =>
      cases hd with
      | mk k x =>
          by_cases hkc : k = c
          · subst hkc
            simp [setField, hcd, Ne.symm hcd]
          · by_cases hkd : k = d
            · subst hkd
              simp [setField, hkc, Ne.symm hkc]
            · have hck : (c == k) = false := beq_eq_false_iff_ne.2 (Ne.symm hkc)
              have hc' : (tl.lookup c).isSome = true := by
                simp only [List.lookup, hck] at hc
                exact hc
              simp [setField, hkc, hkd, ih hc']

theorem set_set_comm (r : Row) (c d : String) (v w : RawValue) (hcd : c ≠ d)
    (hc : (r.fields.lookup c).isSome = true) :
    (r.set c v).set d w = (r.set d w).set c v := by
  simp [Row.set, setField_comm r.fields c d v w hcd hc]

theorem scrubCol_comm (c d : String) (hcd : c ≠ d) (rows : List Row)
    (hc : ∀ r ∈ rows, (r.fields.lookup c).isSome = true) :
    scrubCol d (scrubCol c rows) = scrubCol c (scrubCol d rows) := by
  simp only [scrubCol, List.map_map]
  refine List.map_congr_left fun r hr => ?_
  simp only [Function.comp]
  rw [get_set_ne r c d (scrubVal (r.get c)) (Ne.symm hcd),
    get_set_ne r d c (scrubVal (r.get d)) hcd]
  exact set_set_comm r c d (scrubVal (r.get c)) (scrubVal (r.get d)) hcd (hc r hr)

theorem signKeep_set_ne (m : SignMode) (c d : String) (v : RawValue) (r : Row)
    (h : c ≠ d) : signKeep m c (r.set d v) = signKeep m c r := by
  cases m <;> simp [signKeep, val_set_ne r d c v h]

theorem signFilter_scrubCol_comm (m : SignMode) (c d : String) (hcd : c ≠ d)
    (rows : List Row) :
    scrubCol d (signFilter m c rows) = signFilter m c (scrubCol d rows) := by
  rw [signFilter, signFilter, scrubCol, scrubCol, List.filter_map]
  refine congrArg (List.map _) (List.filter_congr fun r hr => ?_)
  simp only [Function.comp]
  exact (signKeep_set_ne m c d (scrubVal (r.get d)) r hcd).symm

theorem listMin_eq_none (l : List Rat) : listMin l = none ↔ l = [] := by
  cases l with
  | nil => simp [listMin]
  | cons q rest =>
      rw [listMin]
      cases listMin rest <;> simp

theorem listMin_le {l : List Rat} {m v : Rat} (h : listMin l = some m) (hv : v ∈ l) :
    m ≤ v := by
  induction l generalizing m with
  | nil => cases hv
  | cons q rest ih =>
      rw [listMin] at h
      cases hrest : listMin rest with
      | none =>
          rw [hrest] at h
          have hq : q = m := by simpa using h
          have hrnil : rest = [] := (listMin_eq_none rest).1 hrest
          subst hrnil
          have : v = q := by simpa using hv
          simp [this, hq]
      | some mr =>
          rw [hrest] at h
          have hm : min q mr = m := by simpa using h
          rcases List.mem_cons.1 hv with hvq | hvr
          · rw [hvq, ← hm]
            exact min_le_left q mr
          · calc m = min q mr := hm.symm
              _ ≤ mr := min_le_right q mr
              _ ≤ v := ih hrest hvr

theorem listMax_eq_none (l : List Rat) : listMax l = none ↔ l = [] := by
  cases l with
  | nil => simp [listMax]
  | cons q rest =>
      rw [listMax]
      cases listMax rest <;> simp

theorem le_listMax {l : List Rat} {m v : Rat} (h : listMax l = some m) (hv : v ∈ l) :
    v ≤ m := by
  induction l generalizing m with
  | nil => cases hv
  | cons q rest ih =>
      rw [listMax] at h
      cases hrest : listMax rest with
      | none =>
          rw [hrest] at h
          have hq : q = m := by simpa using h
          have hrnil : rest = [] := (listMax_eq_none rest).1 hrest
          subst hrnil
          have : v = q := by simpa using hv
          simp [this, hq]
      | some mr =>
          rw [hrest] at h
          have hm : max q mr = m := by simpa using h
          rcases List.mem_cons.1 hv with hvq | hvr
          · rw [hvq, ← hm]
            exact le_max_left q mr
          · calc v ≤ mr := ih hrest hvr
              _ ≤ max q mr := le_max_right q mr
              _ = m := hm

theorem signKeep_pos_iff (c : String) (r : Row) :
    signKeep SignMode.positiveOnly c r = true ↔
      ∃ v : Rat, r.val c = some v ∧ 0 < v := by
  unfold signKeep
  cases h : r.val c <;> simp

theorem val_mem_colVals {r : Row} {w : List Row} {c : String} {v : Rat}
    (h : r ∈ w) (hval : r.val c = some v) : v ∈ colVals c w :=
  List.mem_filterMap.2 ⟨r, h, hval⟩

theorem rangeEntry_keep (c : String) (w : List Row) (r : Row) (v : Rat)
    (hval : r.val c = some v) (hvmem : v ∈ colVals c w) (p : String × Rat × Rat)
    (hp : p ∈ rangeEntry c w) : rangeKeep p.1 p.2.1 p.2.2 r = true := by
  simp only [rangeEntry] at hp
  cases hmin : listMin (colVals c w) with
  | none =>
      rw [hmin] at hp
      simp at hp
  | some lo =>
      cases hmax : listMax (colVals c w) with
      | none =>
          rw [hmin, hmax] at hp
          simp at hp
      | some hi =>
          rw [hmin, hmax] at hp
          simp at hp
          subst hp
          exact (rangeKeep_eq_true_iff c lo hi r).2
            ⟨v, hval, listMin_le hmin hvmem, le_listMax hmax hvmem⟩

/-- C3: for a dataset whose rows all carry the two distinct numeric fields
A and B, both in PositiveOnly mode with their range controls left at the
full defaults: the sequential destructive sign filtering (A then B) equals
the simultaneous conjunction A > 0 AND B > 0 on the coerced dataset; the
final working set is the same for the opposite iteration order; the
default full ranges the engine records filter nothing further; and the
composed filtered result is identical for both orders (even though the
recorded intermediate ranges differ). -/
theorem sign_filter_order_independent (rows : List Row) (A B : String)
    (sel : List String) (d0 d1 : Int) (hAB : A ≠ B)
    (hA : ∀ r ∈ rows, (r.fields.lookup A).isSome = true)
    (hB : ∀ r ∈ rows, (r.fields.lookup B).isSome = true) :
    (runEngine [(A, SignMode.positiveOnly), (B, SignMode.positiveOnly)] rows).rows =
      (scrubCol B (scrubCol A rows)).filter
        (fun r => signKeep SignMode.positiveOnly A r &&
          signKeep SignMode.positiveOnly B r) ∧
    (runEngine [(A, SignMode.positiveOnly), (B, SignMode.positiveOnly)] rows).rows =
      (runEngine [(B, SignMode.positiveOnly), (A, SignMode.positiveOnly)] rows).rows ∧
    rangeFilter
        (runEngine [(A, SignMode.positiveOnly), (B, SignMode.positiveOnly)] rows).ranges
        (runEngine [(A, SignMode.positiveOnly), (B, SignMode.positiveOnly)] rows).rows =
      (runEngine [(A, SignMode.positiveOnly), (B, SignMode.positiveOnly)] rows).rows ∧
    filtered_df
        (runEngine [(A, SignMode.positiveOnly), (B, SignMode.positiveOnly)] rows).rows
        sel d0 d1
        (runEngine [(A, SignMode.positiveOnly), (B, SignMode.positiveOnly)] rows).ranges =
      filtered_df
        (runEngine [(B, SignMode.positiveOnly), (A, SignMode.positiveOnly)] rows).rows
        sel d0 d1
        (runEngine [(B, SignMode.positiveOnly), (A, SignMode.positiveOnly)] rows).ranges := by
  have hengAB : runEngine [(A, SignMode.positiveOnly), (B, SignMode.positiveOnly)] rows =
      ⟨signFilter SignMode.positiveOnly B
          (scrubCol B (signFilter SignMode.positiveOnly A (scrubCol A rows))),
        rangeEntry A (signFilter SignMode.positiveOnly A (scrubCol A rows)) ++
          rangeEntry B (signFilter SignMode.positiveOnly B
            (scrubCol B (signFilter SignMode.positiveOnly A (scrubCol A rows))))⟩ := by
    simp [runEngine, engineStep_eq]
  have hengBA : runEngine [(B, SignMode.positiveOnly), (A, SignMode.positiveOnly)] rows =
      ⟨signFilter SignMode.positiveOnly A
          (scrubCol A (signFilter SignMode.positiveOnly B (scrubCol B rows))),
        rangeEntry B (signFilter SignMode.positiveOnly B (scrubCol B rows)) ++
          rangeEntry A (signFilter SignMode.positiveOnly A
            (scrubCol A (signFilter SignMode.positiveOnly B (scrubCol B rows))))⟩ := by
    simp [runEngine, engineStep_eq]
  have hkeep : ∀ X Y : String, X ≠ Y →
      ∀ r ∈ signFilter SignMode.positiveOnly Y
          (scrubCol Y (signFilter SignMode.positiveOnly X (scrubCol X rows))),
        ∀ p ∈ rangeEntry X (signFilter SignMode.positiveOnly X (scrubCol X rows)) ++
            rangeEntry Y (signFilter SignMode.positiveOnly Y
              (scrubCol Y (signFilter SignMode.positiveOnly X (scrubCol X rows)))),
          rangeKeep p.1 p.2.1 p.2.2 r = true := by
    intro X Y hXY r hr p hp
    rcases List.mem_append.1 hp with hpX | hpY
    · have hrW : r ∈ scrubCol Y (signFilter SignMode.positiveOnly X (scrubCol X rows)) :=
        List.mem_of_mem_filter hr
      obtain ⟨r0, hr0, hreq⟩ := List.mem_map.1 hrW
      have hkeep0 : signKeep SignMode.positiveOnly X r0 = true := List.of_mem_filter hr0
      obtain ⟨v, hv, hvpos⟩ := (signKeep_pos_iff X r0).1 hkeep0
      have hrval : r.val X = some v := by
        rw [← hreq, val_set_ne r0 Y X (scrubVal (r0.get Y)) hXY]
        exact hv
      exact rangeEntry_keep X _ r v hrval (val_mem_colVals hr0 hv) p hpX
    · have hkeepr : signKeep SignMode.positiveOnly Y r = true := List.of_mem_filter hr
      obtain ⟨v, hv, hvpos⟩ := (signKeep_pos_iff Y r).1 hkeepr
      exact rangeEntry_keep Y _ r v hv (val_mem_colVals hr hv) p hpY
  have hAB_form : signFilter SignMode.positiveOnly B
        (scrubCol B (signFilter SignMode.positiveOnly A (scrubCol A rows))) =
      (scrubCol B (scrubCol A rows)).filter
        (fun r => signKeep SignMode.positiveOnly A r &&
          signKeep SignMode.positiveOnly B r) := by
    rw [signFilter_scrubCol_comm SignMode.positiveOnly A B hAB (scrubCol A rows)]
    rw [signFilter, signFilter, List.filter_filter]
    refine List.filter_congr fun r hr => ?_
    exact Bool.and_comm _ _
  have hBA_form : signFilter SignMode.positiveOnly A
        (scrubCol A (signFilter SignMode.positiveOnly B (scrubCol B rows))) =
      (scrubCol B (scrubCol A rows)).filter
        (fun r => signKeep SignMode.positiveOnly A r &&
          signKeep SignMode.positiveOnly B r) := by
    rw [signFilter_scrubCol_comm SignMode.positiveOnly B A (Ne.symm hAB) (scrubCol B rows)]
    rw [← scrubCol_comm A B hAB rows hA]
    rw [signFilter, signFilter, List.filter_filter]
  have hrows_eq : (runEngine [(A, SignMode.positiveOnly), (B, SignMode.positiveOnly)] rows).rows =
      (runEngine [(B, SignMode.positiveOnly), (A, SignMode.positiveOnly)] rows).rows := by
    rw [hengAB, hengBA]
    exact hAB_form.trans hBA_form.symm
  have hid : ∀ (W : List Row) (R : List (String × Rat × Rat)),
      (∀ r ∈ W, ∀ p ∈ R, rangeKeep p.1 p.2.1 p.2.2 r = true) →
      filtered_df W sel d0 d1 R = dateFilter d0 d1 (symbolFilter sel W) := by
    intro W R h
    rw [filtered_df, rangeFilter_eq_filter]
    apply List.filter_eq_self.2
    intro r hr
    rw [List.all_eq_true]
    intro p hp
    exact h r (List.mem_of_mem_filter (List.mem_of_mem_filter hr)) p hp
  refine ⟨?_, hrows_eq, ?_, ?_⟩
  · rw [hengAB]
    exact hAB_form
  · rw [hengAB]
    rw [rangeFilter_eq_filter]
    apply List.filter_eq_self.2
    intro r hr
    rw [List.all_eq_true]
    intro p hp
    exact hkeep A B hAB r hr p hp
  · rw [hengAB, hengBA]
    rw [hid _ _ (hkeep A B hAB), hid _ _ (hkeep B A (Ne.symm hAB))]
    rw [hAB_form.trans hBA_form.symm]

/-- C3 witness: the order-independence equality evaluated on a concrete
three-row dataset with numeric fields a and b of mixed signs. -/
theorem sign_filter_order_independent_witness :
    (runEngine [("a", SignMode.positiveOnly), ("b", SignMode.positiveOnly)]
        [⟨0, "S", [("a", RawValue.num 1), ("b", RawValue.num 2)]⟩,
         ⟨1, "S", [("a", RawValue.num (-1)), ("b", RawValue.num 3)]⟩,
         ⟨2, "T", [("a", RawValue.num 2), ("b", RawValue.num (-5))]⟩]).rows =
      (runEngine [("b", SignMode.positiveOnly), ("a", SignMode.positiveOnly)]
        [⟨0, "S", [("a", RawValue.num 1), ("b", RawValue.num 2)]⟩,
         ⟨1, "S", [("a", RawValue.num (-1)), ("b", RawValue.num 3)]⟩,
         ⟨2, "T", [("a", RawValue.num 2), ("b", RawValue.num (-5))]⟩]).rows :=
  (sign_filter_order_independent
    [⟨0, "S", [("a", RawValue.num 1), ("b", RawValue.num 2)]⟩,
     ⟨1, "S", [("a", RawValue.num (-1)), ("b", RawValue.num 3)]⟩,
     ⟨2, "T", [("a", RawValue.num 2), ("b", RawValue.num (-5))]⟩]
    "a" "b" ["S"] 0 5 (by decide) (by decide) (by decide)).2.1

example : date_range DateMode.lastWeek 100 = (93, 100) := by decide

example : daysFromCivil 2024 6 10 - daysFromCivil 2024 6 3 = 7 := by decide

example : daysFromCivil 1970 1 1 = 0 := by decide
